import Mathlib

/-!
Formal model of the Caro (gomoku-variant) game: the rules engine
(`src/engine.py`, the canonical best-of-N version) and the CPU decision
engine (`src/src/ai.py`), shallow-embedded in Lean, together with theorems
checking the specification's claims about them.

Conventions of the embedding:
* Python `None`/piece strings become `Option String`; coordinates are `Int`
  pairs (Python ints), board sizes `Nat`.
* The mutable `Engine`/`GameState` objects become immutable structures; a
  mutating method `m(self, ...) -> bool` becomes a function
  `Engine → ... → Bool × Engine` returning the success flag and the next
  state (the Python methods validate every precondition before writing, so
  the failure branches return the input unchanged, exactly as the source
  leaves `self` untouched).
* Python floats (`per_move_seconds`, evaluation scores) are modelled as
  exact rationals `ℚ`; `-math.inf`/`math.inf` in the alpha-beta search get
  an explicit extended type `XQ`.
* The `blocked_expiry` dict is modelled as the finite-support function
  `Coord → Option Int` (lookup view of the dict); the `wins` dict keeps an
  association-list model because `is_match_over` iterates its values.
* `Move.ts` (a wall-clock timestamp) is outside the model: no claim
  mentions it and it influences nothing.
* `random.choice` receives its randomness as an explicit `rnd : Nat`
  argument used as an index; `save_match_history` (CSV side effect) does
  not touch game state and is omitted.
-/

set_option maxHeartbeats 1000000

/-- Board cell: `none` is empty, `some p` holds a piece marker. -/
abbrev Cell := Option String

/-- Board coordinate `(row, col)` as Python int pairs. -/
abbrev Coord := Int × Int

/-- Read `grid[r][c]`. The Python code checks bounds before every
subscript, so out-of-range reads are mapped to `none`. -/
def gridGet (g : List (List Cell)) (r c : Int) : Cell :=
  if 0 ≤ r ∧ 0 ≤ c then (g.getD r.toNat []).getD c.toNat none else none

/-- Write `grid[r][c] = v`; the source writes only in bounds. -/
def gridSet (g : List (List Cell)) (r c : Int) (v : Cell) : List (List Cell) :=
  if 0 ≤ r ∧ 0 ≤ c then g.set r.toNat ((g.getD r.toNat []).set c.toNat v) else g

/-- Mirror of the `Player` dataclass (`models.py`); the UI-only fields
`gender` and `avatar_path` are dropped. -/
structure Player where
  pid : String
  full_name : String
  nickname : String
  piece : String
  stones_placed : Int
  skill_points : Int
deriving DecidableEq

/-- Python's `pl.nickname or pl.full_name` (empty string is falsy). -/
def pname (p : Player) : String :=
  if p.nickname ≠ "" then p.nickname else p.full_name

/-- Mirror of the `Move` dataclass; the `ts` timestamp is outside the
model (wall clock, used by no claim). -/
structure Move where
  turn_no : Int
  player_id : String
  player_name : String
  piece : String
  row : Int
  col : Int
  action_type : String
deriving DecidableEq

/-- Mirror of the `GameState` dataclass. -/
structure GameState where
  board_size : Nat
  grid : List (List Cell)
  blocked_expiry : Coord → Option Int
  history : List Move
  current_idx : Nat
  global_turn : Int
  per_move_seconds : ℚ
  remaining_seconds : ℚ
  winner_piece : Option String

/-- `GameState.win_length` property: `min(5, board_size)`. -/
def win_length (s : GameState) : Nat := min 5 s.board_size

/-- Mirror of the `Engine` class fields (match-tracking version); the
`match_id`/`match_start_time` strings are wall-clock data used by no claim. -/
structure Engine where
  players : Player × Player
  state : GameState
  best_of : Int
  wins : List (String × Int)
  current_game : Int

/-- Python `self.players[i]`; the program only ever uses indices 0 and 1. -/
def playersGet (e : Engine) (i : Nat) : Player :=
  if i = 0 then e.players.1 else e.players.2

/-- Replace `self.players[i]` (the source mutates the listed object). -/
def setPlayerAt (e : Engine) (i : Nat) (p : Player) : Engine :=
  if i = 0 then { e with players := (p, e.players.2) }
  else { e with players := (e.players.1, p) }

/-- `Engine.current_player`. -/
def current_player (e : Engine) : Player := playersGet e e.state.current_idx

/-- `Engine.opponent_player`. -/
def opponent_player (e : Engine) : Player := playersGet e (1 - e.state.current_idx)

/-- `Engine.in_bounds`. -/
def in_bounds (s : GameState) (r c : Int) : Prop :=
  0 ≤ r ∧ r < (s.board_size : Int) ∧ 0 ≤ c ∧ c < (s.board_size : Int)

instance (s : GameState) (r c : Int) : Decidable (in_bounds s r c) := by
  unfold in_bounds; infer_instance

/-- `Engine.cell_empty_and_unblocked`: empty cell, not in the blocked map. -/
def cell_empty_and_unblocked (s : GameState) (r c : Int) : Prop :=
  gridGet s.grid r c = none ∧ s.blocked_expiry (r, c) = none

instance (s : GameState) (r c : Int) : Decidable (cell_empty_and_unblocked s r c) := by
  unfold cell_empty_and_unblocked; infer_instance

/-- Scan directions: vertical, horizontal, diagonal, anti-diagonal
(`DIRS` in both `engine.py` and `ai.py`). -/
def DIRS : List (Int × Int) := [(1, 0), (0, 1), (1, 1), (1, -1)]

/-- Fuelled unfolding of the `while` loop of `Engine._check_line`: count
consecutive cells equal to `piece` from `(r, c)` stepping by `(dr, dc)`.
Every direction used moves one coordinate strictly monotonically inside
`[0, n)`, so the loop runs at most `n` iterations; `checkLine` below
supplies fuel `n`, which is therefore exact. -/
def checkLineAux (g : List (List Cell)) (n : Nat) (piece : String) (dr dc : Int) :
    Nat → Int → Int → Nat
  | 0, _, _ => 0
  | fuel + 1, r, c =>
    if (0 ≤ r ∧ r < (n : Int) ∧ 0 ≤ c ∧ c < (n : Int)) ∧ gridGet g r c = some piece
    then checkLineAux g n piece dr dc fuel (r + dr) (c + dc) + 1
    else 0

/-- `Engine._check_line(r, c, dr, dc, piece)`. -/
def checkLine (g : List (List Cell)) (n : Nat) (piece : String) (r c dr dc : Int) : Nat :=
  checkLineAux g n piece dr dc n r c

/-- `Engine.is_win_from`: for some axis, the run behind plus the run
forward (including the cell itself) reaches `win_length`. -/
def is_win_from (s : GameState) (r c : Int) (piece : String) : Bool :=
  DIRS.any (fun d =>
    decide (win_length s ≤
      checkLine s.grid s.board_size piece (r - d.1) (c - d.2) (-d.1) (-d.2) +
      checkLine s.grid s.board_size piece r c d.1 d.2))

/-- `Engine.purge_expired_blocks`: drop every entry with
`expiry <= global_turn`. -/
def purge_expired_blocks (s : GameState) : GameState :=
  { s with blocked_expiry := fun k =>
      match s.blocked_expiry k with
      | some t => if t ≤ s.global_turn then none else some t
      | none => none }

/-- Python dict assignment `d[k] = v`: replace in place, else append. -/
def dictInsertW (l : List (String × Int)) (k : String) (v : Int) : List (String × Int) :=
  if l.lookup k = none then l ++ [(k, v)]
  else l.map (fun p => if p.1 = k then (k, v) else p)

/-- Python `d.get(k, 0)`. -/
def lookupD (l : List (String × Int)) (k : String) (d : Int) : Int :=
  (l.lookup k).getD d

/-- `Engine.place_stone`. -/
def place_stone (e : Engine) (r c : Int) : Bool × Engine :=
  if e.state.winner_piece ≠ none then (false, e)
  else if ¬(in_bounds e.state r c ∧ cell_empty_and_unblocked e.state r c) then (false, e)
  else
    let pl := current_player e
    let grid1 := gridSet e.state.grid r c (some pl.piece)
    let gt1 := e.state.global_turn + 1
    let mv : Move :=
      { turn_no := gt1, player_id := pl.pid, player_name := pname pl,
        piece := pl.piece, row := r, col := c, action_type := "stone" }
    let pl1 := { pl with stones_placed := pl.stones_placed + 1 }
    let pl2 := if pl1.stones_placed % 5 = 0
      then { pl1 with skill_points := pl1.skill_points + 1 } else pl1
    let s1 := { e.state with
      grid := grid1
      global_turn := gt1
      history := e.state.history ++ [mv] }
    let won := is_win_from s1 r c pl.piece
    let s2 := if won then { s1 with winner_piece := some pl.piece } else s1
    let wins1 := if won then dictInsertW e.wins pl.pid (lookupD e.wins pl.pid 0 + 1) else e.wins
    let s3 := purge_expired_blocks s2
    let s4 := { s3 with
      current_idx := 1 - s3.current_idx
      remaining_seconds := s3.per_move_seconds }
    (true, setPlayerAt { e with state := s4, wins := wins1 } e.state.current_idx pl2)

/-- `Engine.place_block`. -/
def place_block (e : Engine) (r c : Int) : Bool × Engine :=
  if e.state.winner_piece ≠ none then (false, e)
  else
    let pl := current_player e
    if pl.skill_points ≤ 0 then (false, e)
    else if ¬in_bounds e.state r c then (false, e)
    else if gridGet e.state.grid r c ≠ none then (false, e)
    else if e.state.blocked_expiry (r, c) ≠ none then (false, e)
    else
      let bl1 := fun k => if k = (r, c) then some (e.state.global_turn + 5)
                          else e.state.blocked_expiry k
      let pl1 := { pl with skill_points := pl.skill_points - 1 }
      let bmv : Move :=
        { turn_no := e.state.global_turn, player_id := pl.pid, player_name := pname pl,
          piece := pl.piece, row := r, col := c, action_type := "block" }
      (true, setPlayerAt
        { e with state := { e.state with
            blocked_expiry := bl1
            history := e.state.history ++ [bmv] } }
        e.state.current_idx pl1)

/-- Index of the most recent history entry with the given `player_id`
(the backwards `while` loop in `undo_opponent_last_move`). -/
def findLastIdxByPid (l : List Move) (pid : String) : Option Nat :=
  (l.reverse.findIdx? (fun m => m.player_id == pid)).map (fun i => l.length - 1 - i)

/-- Placeholder move for the (never-failing) indexed read after the search. -/
def emptyMove : Move :=
  { turn_no := 0, player_id := "", player_name := "", piece := "",
    row := 0, col := 0, action_type := "stone" }

/-- `Engine.undo_opponent_last_move` (canonical self-undo version of
`src/engine.py`): pop the most recent history entry whose `player_id` is
the current player's, clear the board cell if it still holds that piece
(also clearing the winner flag), spend one skill point, and append an
`undo` record at the current `global_turn`. -/
def undo_opponent_last_move (e : Engine) : Bool × Engine :=
  if e.state.winner_piece ≠ none then (false, e)
  else
    let me := current_player e
    if me.skill_points ≤ 0 then (false, e)
    else
      match findLastIdxByPid e.state.history me.pid with
      | none => (false, e)
      | some idx =>
        let mv := (e.state.history.get? idx).getD emptyMove
        let hist1 := e.state.history.eraseIdx idx
        let hit := gridGet e.state.grid mv.row mv.col = some mv.piece
        let grid1 := if hit then gridSet e.state.grid mv.row mv.col none else e.state.grid
        let winner1 := if hit then none else e.state.winner_piece
        let me1 := { me with skill_points := me.skill_points - 1 }
        let umv : Move :=
          { turn_no := e.state.global_turn, player_id := me.pid, player_name := pname me,
            piece := me.piece, row := mv.row, col := mv.col, action_type := "undo" }
        (true, setPlayerAt
          { e with state := { e.state with
              history := hist1 ++ [umv]
              grid := grid1
              winner_piece := winner1 } }
          e.state.current_idx me1)

/-- `Engine.tick(dt)`. -/
def tick (e : Engine) (dt : ℚ) : Engine :=
  if e.state.winner_piece ≠ none then e
  else
    let rem := e.state.remaining_seconds - dt
    if rem ≤ 0 then
      { e with state := { e.state with
          remaining_seconds := e.state.per_move_seconds,
          current_idx := 1 - e.state.current_idx } }
    else { e with state := { e.state with remaining_seconds := rem } }

/-- `Engine.is_match_over` (BO1 is reported complete unconditionally). -/
def is_match_over (e : Engine) : Bool :=
  if e.best_of = 1 then true
  else e.wins.any (fun p => decide (e.best_of.fdiv 2 + 1 ≤ p.2))

/-- `Engine._new_state`. -/
def new_state (size : Nat) (per : ℚ) : GameState :=
  { board_size := size,
    grid := List.replicate size (List.replicate size none),
    blocked_expiry := fun _ => none,
    history := [],
    current_idx := 0,
    global_turn := 0,
    per_move_seconds := per,
    remaining_seconds := per,
    winner_piece := none }

/-- `Engine.__init__` (without the wall-clock match id/date). -/
def engineInit (p1 p2 : Player) (size : Nat) (per : ℚ) (best : Int) : Engine :=
  { players := (p1, p2),
    state := new_state size per,
    best_of := best,
    wins := dictInsertW (dictInsertW [] p1.pid 0) p2.pid 0,
    current_game := 1 }

/-! ## CPU decision engine (`src/src/ai.py`) -/

/-- Wall sentinel: blocked cells break patterns when scanning lines. -/
def SENT_WALL : String := "|"

/-- Named empty string (the `enc_cell` encoding of an empty cell). -/
def emptyStr : String := ""

/-- `WEIGHTS` pattern scores. -/
def W_FIVE : Int := 1000000
def W_OPEN_FOUR : Int := 100000
def W_CLOSED_FOUR : Int := 40000
def W_OPEN_THREE : Int := 5000
def W_CLOSED_THREE : Int := 800
def W_OPEN_TWO : Int := 200
def W_CLOSED_TWO : Int := 60
def W_ONE : Int := 10

/-- Mirror of the `CPU` class fields; `__init__` derives `opp_piece` from
`cpu_piece` via `mkCPU`. -/
structure CPU where
  difficulty : String
  cpu_piece : String
  opp_piece : String

/-- `CPU.__init__(difficulty, piece)`. -/
def mkCPU (difficulty piece : String) : CPU :=
  { difficulty := difficulty, cpu_piece := piece,
    opp_piece := if piece = "O" then "X" else "O" }

/-- `legal_empties(state)`: empty, unblocked cells in row-major order. -/
def legal_empties (s : GameState) : List (Int × Int) :=
  (List.range s.board_size).bind (fun r =>
    (List.range s.board_size).filterMap (fun c =>
      if gridGet s.grid r c = none ∧ s.blocked_expiry ((r : Int), (c : Int)) = none
      then some ((r : Int), (c : Int)) else none))

/-- `board_is_empty(state)`: no `X` or `O` anywhere in the grid. -/
def board_is_empty (s : GameState) : Bool :=
  s.grid.all (fun row => row.all (fun v => !(v == some "X" || v == some "O")))

/-- Python `range(lo, hi)` over integers. -/
def intRange (lo hi : Int) : List Int :=
  (List.range (hi - lo).toNat).map (fun k => lo + (k : Int))

/-- Keep the first occurrence of every element (model of Python's set
accumulation; the set's iteration order is implementation-defined, the
model fixes first-insertion order — every property proved below is
order-independent). -/
def dedupAux (seen : List (Int × Int)) : List (Int × Int) → List (Int × Int)
  | [] => []
  | x :: xs => if x ∈ seen then dedupAux seen xs else x :: dedupAux (x :: seen) xs

def dedupFirst (l : List (Int × Int)) : List (Int × Int) := dedupAux [] l

/-- Stable insertion: `x` goes after every `y` with `keep y x = true`.
With `keep y x := key y ≤ key x` this is Python's stable ascending
`sorted`; with `keep y x := key x ≤ key y` the descending one. -/
def insertBy {α : Type} (keep : α → α → Bool) (x : α) : List α → List α
  | [] => [x]
  | y :: ys => if keep y x then y :: insertBy keep x ys else x :: y :: ys

def sortBy {α : Type} (keep : α → α → Bool) (l : List α) : List α :=
  l.foldl (fun acc x => insertBy keep x acc) []

/-- Stones currently on the board (row-major enumeration of the
`{(r, c) | grid[r][c] in ("X","O")}` set comprehension). -/
def stonesList (g : List (List Cell)) (n : Nat) : List (Int × Int) :=
  (List.range n).bind (fun r =>
    (List.range n).filterMap (fun c =>
      if gridGet g r c = some "X" ∨ gridGet g r c = some "O"
      then some ((r : Int), (c : Int)) else none))

/-- Manhattan distance to the board centre `(n-1)/2`, the sort key of
`candidate_moves`. -/
def centerKey (n : Nat) (rc : Int × Int) : ℚ :=
  |(rc.1 : ℚ) - ((n : ℚ) - 1) / 2| + |(rc.2 : ℚ) - ((n : ℚ) - 1) / 2|

/-- `candidate_moves(state, empties, radius)`: legal cells within
Chebyshev radius of a stone, sorted by centrality. -/
def candidate_moves (s : GameState) (radius : Int) : List (Int × Int) :=
  let n := s.board_size
  let stones := stonesList s.grid n
  if stones = [] then []
  else
    let raw := stones.bind (fun st =>
      (intRange (st.1 - radius) (st.1 + radius + 1)).bind (fun r =>
        (intRange (st.2 - radius) (st.2 + radius + 1)).filterMap (fun c =>
          if (0 ≤ r ∧ r < (n : Int)) ∧ (0 ≤ c ∧ c < (n : Int)) ∧
             gridGet s.grid r c = none ∧ s.blocked_expiry (r, c) = none
          then some (r, c) else none)))
    sortBy (fun y x => centerKey n y ≤ centerKey n x) (dedupFirst raw)

/-- Inner `while` pair of `is_win_from_grid`: total run through `(r, c)`
counting the cell once. -/
def is_win_from_grid (g : List (List Cell)) (n : Nat) (r c : Int)
    (piece : String) (winLen : Nat) : Bool :=
  DIRS.any (fun d =>
    decide (winLen ≤
      1 + checkLineAux g n piece d.1 d.2 n (r + d.1) (c + d.2)
        + checkLineAux g n piece (-d.1) (-d.2) n (r - d.1) (c - d.2)))

/-- `winning_if_place(grid, blocked_expiry, n, r, c, piece, win_len)`. -/
def winning_if_place (g : List (List Cell)) (bl : Coord → Option Int) (n : Nat)
    (r c : Int) (piece : String) (winLen : Nat) : Bool :=
  if bl (r, c) ≠ none ∨ gridGet g r c ≠ none then false
  else is_win_from_grid (gridSet g r c (some piece)) n r c piece winLen

/-- `CPU._find_tactical_win`: first legal cell that wins immediately. -/
def find_tactical_win (s : GameState) (piece : String)
    (empties : List (Int × Int)) : Option (Int × Int) :=
  empties.find? (fun rc =>
    winning_if_place s.grid s.blocked_expiry s.board_size rc.1 rc.2 piece (win_length s))

/-- `enc_cell(grid, blocks, r, c)`. -/
def enc_cell (g : List (List Cell)) (bl : Coord → Option Int) (r c : Int) : String :=
  if bl (r, c) ≠ none then SENT_WALL
  else match gridGet g r c with
       | none => "."
       | some v => v

/-- Length of the leading run of `piece` (the inner `while j < n and
seq[j] == piece` loop viewed from a suffix). -/
def leadCount (piece : String) : List String → Nat
  | [] => 0
  | x :: xs => if x = piece then leadCount piece xs + 1 else 0

/-- End index `j` of the maximal run of `piece` starting at `i`. -/
def runEnd (seq : List String) (piece : String) (i : Nat) : Nat :=
  i + leadCount piece (seq.drop i)

theorem leadCount_le (piece : String) (l : List String) : leadCount piece l ≤ l.length := by
  induction l with
  | nil => simp [leadCount]
  | cons x xs ih =>
    simp only [leadCount, List.length_cons]
    split <;> omega

theorem leadCount_mem (piece : String) (l : List String) :
    ∀ k, k < leadCount piece l → l.getD k emptyStr = piece := by
  induction l with
  | nil => simp [leadCount]
  | cons x xs ih =>
    intro k hk
    simp only [leadCount] at hk
    by_cases hx : x = piece
    · cases k with
      | zero => simpa using hx
      | succ k' =>
        simp only [List.getD_cons_succ]
        exact ih k' (by simp [hx] at hk; omega)
    · simp [hx] at hk

theorem leadCount_stop (piece : String) (l : List String)
    (h : leadCount piece l < l.length) : l.getD (leadCount piece l) emptyStr ≠ piece := by
  induction l with
  | nil => simp at h
  | cons x xs ih =>
    by_cases hx : x = piece
    · simp only [leadCount, if_pos hx, List.getD_cons_succ]
      exact ih (by simp only [leadCount, if_pos hx, List.length_cons] at h; omega)
    · simpa [leadCount, hx] using hx

theorem leadCount_pos (piece : String) (x : String) (xs : List String) (hx : x = piece) :
    0 < leadCount piece (x :: xs) := by
  simp [leadCount, hx]

/-- Body of the `score_line` loop for a run starting at `i`: run length
`L = j - i`, neighbours (`SENT_WALL` at the boundary), `open_ends` count,
and the `if/elif` scoring chain of the source. -/
def srcRunScore (seq : List String) (piece : String) (winLen : Nat) (i : Nat) : Int :=
  let j := runEnd seq piece i
  let L := j - i
  let left := if 1 ≤ i then seq.getD (i - 1) emptyStr else SENT_WALL
  let right := if j < seq.length then seq.getD j emptyStr else SENT_WALL
  let openEnds := (if left = "." then 1 else 0) + (if right = "." then 1 else 0)
  if winLen ≤ L then W_FIVE
  else if L = 4 then (if openEnds = 2 then W_OPEN_FOUR else W_CLOSED_FOUR)
  else if L = 3 then (if openEnds = 2 then W_OPEN_THREE else W_CLOSED_THREE)
  else if L = 2 then (if openEnds = 2 then W_OPEN_TWO else W_CLOSED_TWO)
  else W_ONE

/-- Unfolding of the outer `while i < n` loop of `score_line` from index
`i`: skip non-`piece` cells; at a run, score it and jump to its end. -/
def score_line_from (seq : List String) (piece : String) (winLen : Nat) (i : Nat) : Int :=
  if h : i < seq.length then
    if hp : seq.getD i emptyStr ≠ piece then score_line_from seq piece winLen (i + 1)
    else srcRunScore seq piece winLen i + score_line_from seq piece winLen (runEnd seq piece i)
  else 0
termination_by seq.length - i
decreasing_by
  · omega
  · have h1 : 0 < leadCount piece (seq.drop i) := by
      have hd : seq.drop i = seq.getD i emptyStr :: seq.drop (i + 1) := by
        rw [List.getD_eq_getElem?_getD, List.getElem?_eq_getElem h]
        exact (List.drop_eq_getElem_cons h).symm ▸ rfl
      rw [hd]
      exact leadCount_pos piece _ _ (by push_neg at hp; exact hp)
    simp only [runEnd]
    omega

/-- `score_line(seq, piece, win_len)`. -/
def score_line (seq : List String) (piece : String) (winLen : Nat) : Int :=
  score_line_from seq piece winLen 0

/-- `evaluate_grid`'s line inventory: rows, columns and both diagonal
families as 1-D sequences of `enc_cell` codes (`push_line` drops empty
sequences). -/
def evalLines (g : List (List Cell)) (bl : Coord → Option Int) (n : Nat) :
    List (List String) :=
  let rows := (List.range n).map (fun r =>
    (List.range n).map (fun c => enc_cell g bl (r : Int) (c : Int)))
  let cols := (List.range n).map (fun c =>
    (List.range n).map (fun r => enc_cell g bl (r : Int) (c : Int)))
  let diagA1 := (List.range n).map (fun start =>
    (List.range (start + 1)).map (fun k => enc_cell g bl ((start : Int) - (k : Int)) (k : Int)))
  let diagA2 := ((List.range n).drop 1).map (fun start =>
    (List.range (n - start)).map (fun k =>
      enc_cell g bl ((n : Int) - 1 - (k : Int)) ((start : Int) + (k : Int))))
  let diagB1 := (List.range n).map (fun start =>
    (List.range (n - start)).map (fun k => enc_cell g bl ((start : Int) + (k : Int)) (k : Int)))
  let diagB2 := ((List.range n).drop 1).map (fun start =>
    (List.range (n - start)).map (fun k => enc_cell g bl (k : Int) ((start : Int) + (k : Int))))
  (rows ++ cols ++ diagA1 ++ diagA2 ++ diagB1 ++ diagB2).filter (fun seq => !seq.isEmpty)

/-- Centrality bonus term of `evaluate_grid`:
`±0.3 / (1 + manhattan-distance-to-centre)` per stone. -/
def cen_bonus (g : List (List Cell)) (me opp : String) (n : Nat) : ℚ :=
  ((List.range n).bind (fun (r : Nat) => (List.range n).map (fun (c : Nat) =>
    let d : ℚ := |(r : ℚ) - ((n : ℚ) - 1) / 2| + |(c : ℚ) - ((n : ℚ) - 1) / 2|
    if gridGet g (r : Int) (c : Int) = some me then (3 / 10 : ℚ) / (1 + d)
    else if gridGet g (r : Int) (c : Int) = some opp then -(3 / 10 : ℚ) / (1 + d)
    else 0))).sum

/-- `evaluate_grid(grid, blocks, me, win_len)`: pattern sums for both
sides, the 1.15 blocking bias, plus the centrality bonus. -/
def evaluate_grid (g : List (List Cell)) (bl : Coord → Option Int)
    (me : String) (winLen : Nat) : ℚ :=
  let opp := if me = "O" then "X" else "O"
  let n := g.length
  let lines := evalLines g bl n
  let myScore := (lines.map (fun seq => score_line seq me winLen)).sum
  let oppScore := (lines.map (fun seq => score_line seq opp winLen)).sum
  ((myScore : ℚ) - (23 / 20 : ℚ) * (oppScore : ℚ)) + cen_bonus g me opp n

/-- `shallow_move_score`: evaluate after a hypothetical placement. -/
def shallow_move_score (g : List (List Cell)) (bl : Coord → Option Int)
    (r c : Int) (me : String) (winLen : Nat) : ℚ :=
  evaluate_grid (gridSet g r c (some me)) bl me winLen

/-- Python float values `-inf`, finite, `+inf` as used by the alpha-beta
search (all finite scores are exact rationals here). -/
inductive XQ where
  | ninf : XQ
  | fin : ℚ → XQ
  | pinf : XQ
deriving DecidableEq

/-- Negation on `XQ`. -/
def XQ.neg : XQ → XQ
  | ninf => pinf
  | fin x => fin (-x)
  | pinf => ninf

/-- Strict `<` on `XQ`. -/
def XQ.blt : XQ → XQ → Bool
  | ninf, ninf => false
  | ninf, _ => true
  | fin _, ninf => false
  | fin a, fin b => decide (a < b)
  | fin _, pinf => true
  | pinf, _ => false

/-- `a >= b` on `XQ` (totality of the order gives `¬(a < b)`). -/
def XQ.bge (a b : XQ) : Bool := !XQ.blt a b

/-- `has_win_anywhere(grid, piece, win_len)`. -/
def has_win_anywhere (g : List (List Cell)) (piece : String) (winLen : Nat) : Bool :=
  let n := g.length
  (List.range n).any (fun r => (List.range n).any (fun c =>
    gridGet g r c == some piece && is_win_from_grid g n r c piece winLen))

/-- `pruned_moves_for_search(grid, blocks, radius)`. -/
def pruned_moves_for_search (g : List (List Cell)) (bl : Coord → Option Int)
    (radius : Int) : List (Int × Int) :=
  let n := g.length
  let stones := stonesList g n
  if stones = [] then [(((n / 2 : Nat) : Int), ((n / 2 : Nat) : Int))]
  else dedupFirst (stones.bind (fun st =>
    (intRange (st.1 - radius) (st.1 + radius + 1)).bind (fun r =>
      (intRange (st.2 - radius) (st.2 + radius + 1)).filterMap (fun c =>
        if (0 ≤ r ∧ r < (n : Int)) ∧ (0 ≤ c ∧ c < (n : Int)) ∧
           gridGet g r c = none ∧ bl (r, c) = none
        then some (r, c) else none))))

/-- Loop body of `negamax`: `best`/`alpha` updates with the
`alpha >= beta` cutoff; `step` is the (already negated) child value. -/
def abLoop (step : XQ → (Int × Int) → XQ) (beta : XQ) :
    List (Int × Int) → XQ → XQ → XQ
  | [], best, _ => best
  | rc :: rest, best, alpha =>
    let val := step alpha rc
    let best1 := if best.blt val then val else best
    let alpha1 := if alpha.blt best1 then best1 else alpha
    if alpha1.bge beta then best1 else abLoop step beta rest best1 alpha1

/-- `negamax(grid, blocks, depth, alpha, beta, me, opp, win_len)`. -/
def negamax (g : List (List Cell)) (bl : Coord → Option Int) (depth : Nat)
    (alpha beta : XQ) (me opp : String) (winLen : Nat) : XQ :=
  if has_win_anywhere g me winLen then XQ.fin W_FIVE
  else if has_win_anywhere g opp winLen then XQ.fin (-W_FIVE)
  else
    match depth with
    | 0 => XQ.fin (evaluate_grid g bl me winLen)
    | d + 1 =>
      let moves := pruned_moves_for_search g bl 2
      if moves.isEmpty then XQ.fin 0
      else
        let sorted := sortBy (fun y x =>
          decide (shallow_move_score g bl x.1 x.2 me winLen ≤
                  shallow_move_score g bl y.1 y.2 me winLen)) moves
        abLoop (fun a rc =>
            XQ.neg (negamax (gridSet g rc.1 rc.2 (some me)) bl d
              (XQ.neg beta) (XQ.neg a) opp me winLen))
          beta (sorted.take 12) XQ.ninf alpha
termination_by depth

/-- `order_moves(grid, blocks, moves, me, win_len)`: the single
classification pass is the three complementary filters; `rest` is then
stably sorted by descending shallow score. -/
def order_moves (g : List (List Cell)) (bl : Coord → Option Int)
    (moves : List (Int × Int)) (me : String) (winLen : Nat) : List (Int × Int) :=
  let n := g.length
  let opp := if me = "O" then "X" else "O"
  let wins := moves.filter (fun rc => winning_if_place g bl n rc.1 rc.2 me winLen)
  let blocksL := moves.filter (fun rc =>
    !winning_if_place g bl n rc.1 rc.2 me winLen &&
    winning_if_place g bl n rc.1 rc.2 opp winLen)
  let rest := moves.filter (fun rc =>
    !winning_if_place g bl n rc.1 rc.2 me winLen &&
    !winning_if_place g bl n rc.1 rc.2 opp winLen)
  wins ++ blocksL ++ sortBy (fun y x =>
    decide (shallow_move_score g bl x.1 x.2 me winLen ≤
            shallow_move_score g bl y.1 y.2 me winLen)) rest

/-- Loop of `CPU._search_best`: tracks the best root move,
`alpha = max(alpha, val)`, and the `alpha >= beta` break. -/
def searchLoop (step : XQ → (Int × Int) → XQ) (beta : XQ) :
    List (Int × Int) → Option (Int × Int) → XQ → XQ → Option (Int × Int) × XQ
  | [], bm, bv, _ => (bm, bv)
  | rc :: rest, bm, bv, alpha =>
    let val := step alpha rc
    let bm1 := if bv.blt val then some rc else bm
    let bv1 := if bv.blt val then val else bv
    let alpha1 := if alpha.blt val then val else alpha
    if alpha1.bge beta then (bm1, bv1) else searchLoop step beta rest bm1 bv1 alpha1

/-- `CPU._search_best(state, cands, depth, breadth)`. -/
def search_best (cpu : CPU) (s : GameState) (cands : List (Int × Int))
    (depth breadth : Nat) : Option (Int × Int) × XQ :=
  let g := s.grid
  let bl := s.blocked_expiry
  let ordered := (order_moves g bl cands cpu.cpu_piece (win_length s)).take breadth
  searchLoop (fun a rc =>
      XQ.neg (negamax (gridSet g rc.1 rc.2 (some cpu.cpu_piece)) bl (depth - 1)
        (XQ.neg XQ.pinf) (XQ.neg a) cpu.opp_piece cpu.cpu_piece (win_length s)))
    XQ.pinf ordered none XQ.ninf XQ.ninf

/-- Greedy argmax of the `medium` branch; `none` models the `-inf`
initial `best` (set on the first candidate, every score being finite). -/
def mediumPick (s : GameState) (piece : String)
    (cands : List (Int × Int)) : Option (Int × Int) :=
  (cands.foldl (fun acc rc =>
    let val := evaluate_grid (gridSet s.grid rc.1 rc.2 (some piece))
      s.blocked_expiry piece (win_length s)
    match acc with
    | none => some (rc, val)
    | some (brc, bv) => if bv < val then some (rc, val) else some (brc, bv)) none).map
    (fun p => p.1)

/-- `random.choice(l)` with the randomness passed in as an index. -/
def randomChoice (rnd : Nat) (l : List (Int × Int)) : Int × Int :=
  l.getD (rnd % l.length) (-1, -1)

/-- `CPU.choose_move(state)`. The Python truthiness tests `if win_now:` /
`return best or random.choice(cands)` are `is not None` here: every
candidate is a non-empty tuple, hence truthy. -/
def choose_move (cpu : CPU) (rnd : Nat) (s : GameState) : Int × Int :=
  let empties := legal_empties s
  if empties = [] then (-1, -1)
  else if board_is_empty s then (((s.board_size / 2 : Nat) : Int), ((s.board_size / 2 : Nat) : Int))
  else
    match find_tactical_win s cpu.cpu_piece empties with
    | some rc => rc
    | none =>
      match find_tactical_win s cpu.opp_piece empties with
      | some rc => rc
      | none =>
        let cands0 := candidate_moves s 2
        let cands := if cands0 = [] then empties else cands0
        if cpu.difficulty = "easy" then randomChoice rnd cands
        else if cpu.difficulty = "medium" then
          match mediumPick s cpu.cpu_piece cands with
          | some rc => rc
          | none => randomChoice rnd cands
        else
          match (search_best cpu s cands 2 12).1 with
          | some rc => rc
          | none => randomChoice rnd cands

/-! ## Specification-side notions -/

/-- Well-formed grid: an `n × n` list of lists, as `_new_state` builds it. -/
def WFGrid (s : GameState) : Prop :=
  s.grid.length = s.board_size ∧ ∀ row ∈ s.grid, row.length = s.board_size

instance (s : GameState) : Decidable (WFGrid s) := by
  unfold WFGrid; infer_instance

/-- Spec notion for claim C4: along direction `d`, every cell of the
interval `[-a, b]` (relative to `(r, c)`, which is index 0) holds
`piece` — a contiguous run through `(r, c)` of length `a + b + 1`. -/
def runAll (g : List (List Cell)) (piece : String) (r c : Int)
    (d : Int × Int) (a b : Nat) : Prop :=
  ∀ k : Int, -(a : Int) ≤ k → k ≤ (b : Int) →
    gridGet g (r + k * d.1) (c + k * d.2) = some piece

/-- Spec-side lookup table of the static evaluator, keyed by run length
(1 through 4) and by open-vs-closed; other lengths are outside the table
(the theorem below only meets lengths `< win_length ≤ 5`). -/
def tableScore (L : Nat) (bothOpen : Bool) : Int :=
  if L = 4 then (if bothOpen then W_OPEN_FOUR else W_CLOSED_FOUR)
  else if L = 3 then (if bothOpen then W_OPEN_THREE else W_CLOSED_THREE)
  else if L = 2 then (if bothOpen then W_OPEN_TWO else W_CLOSED_TWO)
  else if L = 1 then W_ONE
  else 0

/-- Spec-side score of the maximal run starting at `i`: the win constant
once the length reaches `win_length`, otherwise the table value, where an
end is open exactly when the adjacent cell exists and is empty (`"."`) —
a wall (`"|"`) or the line boundary is not open. -/
def specRunScore (seq : List String) (piece : String) (winLen : Nat) (i : Nat) : Int :=
  let j := runEnd seq piece i
  let L := j - i
  let openL : Bool := decide (1 ≤ i ∧ seq.getD (i - 1) emptyStr = ".")
  let openR : Bool := decide (j < seq.length ∧ seq.getD j emptyStr = ".")
  if winLen ≤ L then W_FIVE else tableScore L (openL && openR)

/-- Spec-side line score: sum over the maximal contiguous runs of `piece`
(each maximal run is identified by its start index: a `piece` cell whose
predecessor is absent or different). -/
def specLineScore (seq : List String) (piece : String) (winLen : Nat) : Int :=
  ∑ i ∈ Finset.range seq.length,
    if seq.getD i emptyStr = piece ∧ (i = 0 ∨ seq.getD (i - 1) emptyStr ≠ piece)
    then specRunScore seq piece winLen i else 0

/-! ## Concrete instances used by witnesses and counterexamples -/

/-- Player fixtures. -/
def pX : Player :=
  { pid := "p1", full_name := "Alice", nickname := "Alice", piece := "X",
    stones_placed := 0, skill_points := 0 }

def pO : Player :=
  { pid := "p2", full_name := "Bob", nickname := "Bob", piece := "O",
    stones_placed := 0, skill_points := 0 }

/-- Fresh 3×3 best-of-1 engine. -/
def eFresh : Engine := engineInit pX pO 3 20 1

/-- Engine whose only history entry is a block-type move by the current
player `p1`, who holds one skill point (C1's failing input). -/
def eBlockHist : Engine :=
  { players := ({ pX with skill_points := 1 }, pO)
    state := { new_state 3 20 with
      blocked_expiry := fun k => if k = (0, 0) then some 5 else none
      history := [{ turn_no := 0, player_id := "p1", player_name := "Alice",
                    piece := "X", row := 0, col := 0, action_type := "block" }] }
    best_of := 1
    wins := [("p1", 0), ("p2", 0)]
    current_game := 1 }

/-- Engine holding one skill point for `p1`, empty board (C5 witness). -/
def eSkill : Engine :=
  { eFresh with players := ({ pX with skill_points := 1 }, pO) }

/-- Engine with a winner already set (C8 witness). -/
def eWon : Engine :=
  { eFresh with state := { eFresh.state with winner_piece := some "X" } }

/-- Empty 3×3 board whose centre `(1, 1)` is blocked (C10 witness). -/
def eCenterBlocked : Engine :=
  { eFresh with state := { eFresh.state with
      blocked_expiry := fun k => if k = (1, 1) then some 5 else none } }

/-- Row of five `X` stones on an otherwise empty 5×5 board (C4 witness). -/
def sFiveRow : GameState :=
  { new_state 5 20 with
    grid := [List.replicate 5 (some "X"),
             List.replicate 5 none, List.replicate 5 none,
             List.replicate 5 none, List.replicate 5 none] }

/-- Four `O` stones at `(0,0)..(0,3)` on a 5×5 board: `O` to move wins at
`(0,4)` (C6 witness). -/
def sFourRow : GameState :=
  { new_state 5 20 with
    grid := [[some "O", some "O", some "O", some "O", none],
             List.replicate 5 none, List.replicate 5 none,
             List.replicate 5 none, List.replicate 5 none] }

/-- Easy CPU playing `O` (C6/C10 witnesses). -/
def cpuEasyO : CPU := mkCPU "easy" "O"

/-- Engine with best_of = 1 and the initial 0–0 tally (C2 counterexample). -/
def eBo1 : Engine := eFresh

/-! ## Helper lemmas -/

theorem setPlayerAt_state (e : Engine) (i : Nat) (p : Player) :
    (setPlayerAt e i p).state = e.state := by
  unfold setPlayerAt; split <;> rfl

theorem playersGet_setPlayerAt_same (e : Engine) (i : Nat) (p : Player) (hi : i < 2) :
    playersGet (setPlayerAt e i p) i = p := by
  interval_cases i <;> simp [playersGet, setPlayerAt]

theorem playersGet_setPlayerAt_other (e : Engine) (i : Nat) (p : Player) (hi : i < 2) :
    playersGet (setPlayerAt e i p) (1 - i) = playersGet e (1 - i) := by
  interval_cases i <;> simp [playersGet, setPlayerAt]

/-! ## Claim theorems -/

/-- C3: whenever `place_stone`, `place_block` or `undo_opponent_last_move`
returns false, the engine — grid, blocked map, history, global_turn, turn
index, clock, winner flag and both players' counters — is unchanged (the
result is the input engine itself). -/
theorem C3_no_mutation_on_failure (e : Engine) (r c : Int) :
    ((place_stone e r c).1 = false → (place_stone e r c).2 = e)
    ∧ ((place_block e r c).1 = false → (place_block e r c).2 = e)
    ∧ ((undo_opponent_last_move e).1 = false → (undo_opponent_last_move e).2 = e) := by
  refine ⟨?_, ?_, ?_⟩
  · intro h
    unfold place_stone at h ⊢
    split_ifs at h ⊢ <;> simp_all
  · intro h
    simp only [place_block] at h ⊢
    split_ifs at h ⊢ <;> simp_all
  · intro h
    simp only [undo_opponent_last_move] at h ⊢
    split_ifs at h ⊢ <;>
      first
        | rfl
        | (rcases hf : findLastIdxByPid e.state.history (current_player e).pid with _ | idx <;>
            simp_all [hf])

/-- C3 witness: a fresh 3×3 engine rejects an out-of-bounds stone, a
block without skill points and an undo without skill points, leaving the
engine untouched each time. -/
theorem C3_no_mutation_on_failure_witness :
    (place_stone eFresh 5 5).1 = false ∧ (place_stone eFresh 5 5).2 = eFresh
    ∧ (place_block eFresh 0 0).1 = false ∧ (place_block eFresh 0 0).2 = eFresh
    ∧ (undo_opponent_last_move eFresh).1 = false
    ∧ (undo_opponent_last_move eFresh).2 = eFresh :=
  ⟨by decide, (C3_no_mutation_on_failure eFresh 5 5).1 (by decide),
   by decide, (C3_no_mutation_on_failure eFresh 0 0).2.1 (by decide),
   by decide, (C3_no_mutation_on_failure eFresh 0 0).2.2 (by decide)⟩

/-- C2 counterexample: with `best_of = 1` and the initial 0–0 tally,
`is_match_over()` already reports true although no player has reached
`best_of // 2 + 1 = 1` wins — the claimed iff fails. -/
theorem C2_counterexample_bo1 :
    is_match_over eBo1 = true ∧ ¬∃ p ∈ eBo1.wins, eBo1.best_of.fdiv 2 + 1 ≤ p.2 := by
  constructor
  · decide
  · decide

/-- C2 (amended): `is_match_over()` returns true iff `best_of = 1`
(single game, reported complete unconditionally) or some player's
recorded win count is at least `best_of // 2 + 1`. -/
theorem C2_is_match_over_iff (e : Engine) :
    is_match_over e = true ↔
      (e.best_of = 1 ∨ ∃ p ∈ e.wins, e.best_of.fdiv 2 + 1 ≤ p.2) := by
  unfold is_match_over
  split_ifs with h
  · simp [h]
  · simp [h, List.any_eq_true]

/-- C7: every successful `place_stone` bumps the acting player's
`stones_placed` by one, grants one skill point exactly when the new count
is a multiple of 5, and leaves the other player's record untouched. -/
theorem C7_stone_counters (e : Engine) (r c : Int)
    (hidx : e.state.current_idx < 2) (hs : (place_stone e r c).1 = true) :
    (playersGet (place_stone e r c).2 e.state.current_idx).stones_placed
        = (current_player e).stones_placed + 1
    ∧ (playersGet (place_stone e r c).2 e.state.current_idx).skill_points
        = (if ((current_player e).stones_placed + 1) % 5 = 0
           then (current_player e).skill_points + 1
           else (current_player e).skill_points)
    ∧ playersGet (place_stone e r c).2 (1 - e.state.current_idx)
        = playersGet e (1 - e.state.current_idx) := by
  simp only [place_stone] at hs ⊢
  split_ifs at hs ⊢ with h1 h2 h3 h4 <;> try simp at hs
  all_goals
    obtain hi | hi : e.state.current_idx = 0 ∨ e.state.current_idx = 1 := by omega
  all_goals
    simp_all [playersGet, setPlayerAt, current_player]

/-- C7 witness: on a fresh engine the first stone raises `stones_placed`
to 1, grants no skill point, and leaves the second player unchanged. -/
theorem C7_stone_counters_witness :
    eFresh.state.current_idx < 2 ∧ (place_stone eFresh 0 0).1 = true
    ∧ (playersGet (place_stone eFresh 0 0).2 eFresh.state.current_idx).stones_placed
        = (current_player eFresh).stones_placed + 1
    ∧ playersGet (place_stone eFresh 0 0).2 (1 - eFresh.state.current_idx)
        = playersGet eFresh (1 - eFresh.state.current_idx) :=
  ⟨by decide, by decide,
   (C7_stone_counters eFresh 0 0 (by decide) (by decide)).1,
   (C7_stone_counters eFresh 0 0 (by decide) (by decide)).2.2⟩

/-- C8: with no winner, `tick(dt)` subtracts `dt` from the clock; on a
non-positive result it resets the clock to the full budget and flips the
turn, changing nothing else (no stone is placed); with a winner set it is
a no-op. -/
theorem C8_tick_semantics (e : Engine) (dt : ℚ) :
    (e.state.winner_piece ≠ none → tick e dt = e)
    ∧ (e.state.winner_piece = none →
        (e.state.remaining_seconds - dt ≤ 0 →
          tick e dt = { e with state := { e.state with
            remaining_seconds := e.state.per_move_seconds
            current_idx := 1 - e.state.current_idx } })
        ∧ (0 < e.state.remaining_seconds - dt →
          tick e dt = { e with state := { e.state with
            remaining_seconds := e.state.remaining_seconds - dt } })) := by
  refine ⟨fun h => ?_, fun h => ⟨fun hle => ?_, fun hgt => ?_⟩⟩
  · simp [tick, h]
  · simp [tick, h, hle]
  · simp only [tick, h]
    rw [if_neg (by simp), if_neg (not_le.mpr hgt)]

/-- C8 witness: a won game ignores the clock; on a fresh engine a 25 s
tick against a 20 s budget flips the turn and resets the clock, while a
3 s tick merely subtracts. -/
theorem C8_tick_semantics_witness :
    tick eWon 5 = eWon
    ∧ tick eFresh 25 = { eFresh with state := { eFresh.state with
        remaining_seconds := eFresh.state.per_move_seconds
        current_idx := 1 - eFresh.state.current_idx } }
    ∧ tick eFresh 3 = { eFresh with state := { eFresh.state with
        remaining_seconds := eFresh.state.remaining_seconds - 3 } } :=
  ⟨(C8_tick_semantics eWon 5).1 (by decide),
   ((C8_tick_semantics eFresh 25).2 (by decide)).1
     (by norm_num [eFresh, engineInit, new_state]),
   ((C8_tick_semantics eFresh 3).2 (by decide)).2
     (by norm_num [eFresh, engineInit, new_state])⟩

/-- C5: a successful `place_block` at global turn `T` records expiry
`T + 5` without advancing `global_turn`; a blocked coordinate survives
`purge_expired_blocks` and rejects `place_stone` while
`global_turn < expiry`, and the first purge run with
`global_turn >= expiry` removes it. -/
theorem C5_block_expiry (e : Engine) (r c : Int) :
    ((place_block e r c).1 = true →
      (place_block e r c).2.state.blocked_expiry (r, c)
          = some (e.state.global_turn + 5)
      ∧ (place_block e r c).2.state.global_turn = e.state.global_turn)
    ∧ (∀ t : Int, e.state.blocked_expiry (r, c) = some t →
        (e.state.global_turn < t →
          (purge_expired_blocks e.state).blocked_expiry (r, c) = some t
          ∧ (place_stone e r c).1 = false)
        ∧ (t ≤ e.state.global_turn →
          (purge_expired_blocks e.state).blocked_expiry (r, c) = none)) := by
  constructor
  · intro h
    simp only [place_block] at h ⊢
    split_ifs at h ⊢ <;> try simp at h
    rw [setPlayerAt_state]
    simp
  · intro t ht
    refine ⟨fun hlt => ⟨?_, ?_⟩, fun hge => ?_⟩
    · simp [purge_expired_blocks, ht, not_le.mpr hlt]
    · simp only [place_stone]
      split_ifs with h1 h2
      all_goals try rfl
      all_goals simp only [cell_empty_and_unblocked] at h2
      all_goals exact absurd h2.2.2 (by simp [ht])
    · simp [purge_expired_blocks, ht, hge]

/-- C5 witness: on `eSkill` a block at `(0,0)` gets expiry 5 and leaves
`global_turn` at 0; the blocked cell then survives a purge at turn 0,
rejects a stone, and a purge at turn 5 removes it. -/
theorem C5_block_expiry_witness :
    ((place_block eSkill 0 0).1 = true
      ∧ (place_block eSkill 0 0).2.state.blocked_expiry (0, 0)
          = some (eSkill.state.global_turn + 5)
      ∧ (place_block eSkill 0 0).2.state.global_turn = eSkill.state.global_turn)
    ∧ ((purge_expired_blocks eCenterBlocked.state).blocked_expiry (1, 1) = some 5
      ∧ (place_stone eCenterBlocked 1 1).1 = false)
    ∧ (purge_expired_blocks { eCenterBlocked.state with global_turn := 5 }).blocked_expiry
        (1, 1) = none :=
  ⟨⟨by decide, (C5_block_expiry eSkill 0 0).1 (by decide)⟩,
   ((C5_block_expiry eCenterBlocked 1 1).2 5 (by decide)).1 (by decide),
   ((C5_block_expiry { eCenterBlocked with
        state := { eCenterBlocked.state with global_turn := 5 } } 1 1).2 5
      (by decide)).2 (by decide)⟩

/-- C1 (code bug): on `eBlockHist` the current player `p1` has no
stone-type move anywhere in history (only a block record), yet
`undo_opponent_last_move` returns true — the backwards search matches by
`player_id` alone and pops the block record, leaving only the appended
undo record. -/
theorem C1_undo_pops_block_record :
    (∀ m ∈ eBlockHist.state.history,
      ¬(m.action_type = "stone" ∧ m.player_id = (current_player eBlockHist).pid))
    ∧ (current_player eBlockHist).skill_points = 1
    ∧ eBlockHist.state.winner_piece = none
    ∧ (undo_opponent_last_move eBlockHist).1 = true
    ∧ (undo_opponent_last_move eBlockHist).2.state.history
        = [{ turn_no := 0, player_id := "p1", player_name := "Alice", piece := "X",
             row := 0, col := 0, action_type := "undo" }] := by
  refine ⟨by decide, by decide, by decide, by decide, by decide⟩

/-- C10: on a board with no stones but at least one legal cell,
`choose_move` returns the centre `(N//2, N//2)` unconditionally — also
when the centre itself is blocked, in which case `place_stone` at the
returned coordinate fails. -/
theorem C10_center_even_if_blocked (cpu : CPU) (rnd : Nat) (e : Engine)
    (hemp : board_is_empty e.state = true)
    (hne : legal_empties e.state ≠ []) :
    choose_move cpu rnd e.state
        = (((e.state.board_size / 2 : Nat) : Int), ((e.state.board_size / 2 : Nat) : Int))
    ∧ (e.state.blocked_expiry
          (((e.state.board_size / 2 : Nat) : Int), ((e.state.board_size / 2 : Nat) : Int))
            ≠ none →
        (place_stone e ((e.state.board_size / 2 : Nat) : Int)
          ((e.state.board_size / 2 : Nat) : Int)).1 = false) := by
  constructor
  · simp [choose_move, hne, hemp]
  · intro hb
    simp only [place_stone]
    split_ifs with h1 h2
    all_goals try rfl
    all_goals simp only [cell_empty_and_unblocked] at h2
    all_goals exact absurd h2.2.2 hb

/-- C10 witness: empty 3×3 board whose centre `(1,1)` is blocked — the
CPU still proposes `(1,1)` and `place_stone` there fails. -/
theorem C10_center_even_if_blocked_witness :
    board_is_empty eCenterBlocked.state = true
    ∧ legal_empties eCenterBlocked.state ≠ []
    ∧ eCenterBlocked.state.blocked_expiry (1, 1) ≠ none
    ∧ choose_move cpuEasyO 0 eCenterBlocked.state = (1, 1)
    ∧ (place_stone eCenterBlocked 1 1).1 = false :=
  ⟨by decide, by decide, by decide,
   (C10_center_even_if_blocked cpuEasyO 0 eCenterBlocked (by decide) (by decide)).1,
   (C10_center_even_if_blocked cpuEasyO 0 eCenterBlocked (by decide) (by decide)).2
     (by decide)⟩

/-- Bounds recovered from a successful read of a well-formed `n × n` grid. -/
theorem gridGet_some_bounds {g : List (List Cell)} {n : Nat}
    (hg : g.length = n) (hrows : ∀ row ∈ g, row.length = n)
    {r c : Int} {v : String} (h : gridGet g r c = some v) :
    0 ≤ r ∧ r < (n : Int) ∧ 0 ≤ c ∧ c < (n : Int) := by
  unfold gridGet at h
  split_ifs at h with h0
  · obtain ⟨hr0, hc0⟩ := h0
    by_cases hr : r.toNat < g.length
    · have hrow : g.getD r.toNat [] = g[r.toNat] := by
        rw [List.getD_eq_getElem?_getD, List.getElem?_eq_getElem hr]
        rfl
      have hlen : (g[r.toNat]).length = n := hrows _ (List.getElem_mem hr)
      by_cases hc : c.toNat < n
      · exact ⟨hr0, by omega, hc0, by omega⟩
      · rw [hrow, List.getD_eq_getElem?_getD, List.getElem?_eq_none (by omega)] at h
        simp at h
    · rw [List.getD_eq_getElem?_getD g, List.getElem?_eq_none (by omega)] at h
      simp [List.getD] at h

/-- Every index counted by the `_check_line` loop holds `piece`. -/
theorem checkLineAux_sound (g : List (List Cell)) (n : Nat) (piece : String)
    (dr dc : Int) :
    ∀ (fuel : Nat) (r c : Int) (k : Nat), k < checkLineAux g n piece dr dc fuel r c →
      gridGet g (r + (k : Int) * dr) (c + (k : Int) * dc) = some piece := by
  intro fuel
  induction fuel with
  | zero => intro r c k hk; simp [checkLineAux] at hk
  | succ f ih =>
    intro r c k hk
    simp only [checkLineAux] at hk
    split_ifs at hk with hcond
    · match k with
      | 0 => simpa using hcond.2
      | k' + 1 =>
        have h2 := ih (r + dr) (c + dc) k' (by omega)
        have e1 : r + ((k' + 1 : Nat) : Int) * dr = r + dr + (k' : Int) * dr := by
          push_cast; ring
        have e2 : c + ((k' + 1 : Nat) : Int) * dc = c + dc + (k' : Int) * dc := by
          push_cast; ring
        rw [e1, e2]; exact h2
    · omega

/-- The `_check_line` loop counts at least any prefix of in-bounds
`piece` cells, given enough fuel. -/
theorem checkLineAux_complete (g : List (List Cell)) (n : Nat) (piece : String)
    (dr dc : Int) :
    ∀ (m fuel : Nat) (r c : Int), m ≤ fuel →
      (∀ k : Nat, k < m →
        (0 ≤ r + (k : Int) * dr ∧ r + (k : Int) * dr < (n : Int) ∧
         0 ≤ c + (k : Int) * dc ∧ c + (k : Int) * dc < (n : Int)) ∧
        gridGet g (r + (k : Int) * dr) (c + (k : Int) * dc) = some piece) →
      m ≤ checkLineAux g n piece dr dc fuel r c := by
  intro m
  induction m with
  | zero => intro fuel r c _ _; exact Nat.zero_le _
  | succ m' ih =>
    intro fuel r c hmf hall
    obtain ⟨f, rfl⟩ : ∃ f, fuel = f + 1 := ⟨fuel - 1, by omega⟩
    simp only [checkLineAux]
    have h0 := hall 0 (Nat.succ_pos m')
    simp only [Nat.cast_zero, zero_mul, add_zero] at h0
    rw [if_pos ⟨h0.1, h0.2⟩]
    have hrec : m' ≤ checkLineAux g n piece dr dc f (r + dr) (c + dc) := by
      refine ih f (r + dr) (c + dc) (by omega) ?_
      intro k hk
      have hk1 := hall (k + 1) (by omega)
      have e1 : r + ((k + 1 : Nat) : Int) * dr = r + dr + (k : Int) * dr := by
        push_cast; ring
      have e2 : c + ((k + 1 : Nat) : Int) * dc = c + dc + (k : Int) * dc := by
        push_cast; ring
      rw [e1, e2] at hk1
      exact hk1
    omega

/-- One run interval pushes both `_check_line` scans of `is_win_from` to
at least the backward/forward lengths. -/
theorem run_ge (g : List (List Cell)) (n : Nat) (piece : String)
    (dr dc r c : Int) (a b : Nat)
    (hg : g.length = n) (hrows : ∀ row ∈ g, row.length = n)
    (hrun : ∀ k : Int, -(a : Int) ≤ k → k ≤ (b : Int) →
      gridGet g (r + k * dr) (c + k * dc) = some piece)
    (ha : a ≤ n) (hb : b + 1 ≤ n) :
    a ≤ checkLineAux g n piece (-dr) (-dc) n (r - dr) (c - dc)
    ∧ b + 1 ≤ checkLineAux g n piece dr dc n r c := by
  constructor
  · refine checkLineAux_complete g n piece (-dr) (-dc) a n (r - dr) (c - dc) ha ?_
    intro k hk
    have e1 : r - dr + (k : Int) * -dr = r + (-((k : Int) + 1)) * dr := by ring
    have e2 : c - dc + (k : Int) * -dc = c + (-((k : Int) + 1)) * dc := by ring
    have hget := hrun (-((k : Int) + 1)) (by omega) (by omega)
    rw [e1, e2]
    exact ⟨gridGet_some_bounds hg hrows hget, hget⟩
  · refine checkLineAux_complete g n piece dr dc (b + 1) n r c hb ?_
    intro k hk
    have hget := hrun (k : Int) (by omega) (by omega)
    exact ⟨gridGet_some_bounds hg hrows hget, hget⟩

/-- C4: on a well-formed board, for a cell already holding `piece`,
`is_win_from` is true exactly when one of the four axes carries a
contiguous run of `piece` through the cell (counted once) of length at
least `win_length`; the blocked-cell map never interrupts such a run
(`is_win_from` does not read it at all). -/
theorem C4_is_win_from_runs (s : GameState) (hwf : WFGrid s) (r c : Int)
    (piece : String) (hcell : gridGet s.grid r c = some piece) :
    (is_win_from s r c piece = true ↔
      ∃ d ∈ DIRS, ∃ a b : Nat,
        runAll s.grid piece r c d a b ∧ win_length s ≤ a + b + 1)
    ∧ ∀ be : Coord → Option Int,
        is_win_from { s with blocked_expiry := be } r c piece
          = is_win_from s r c piece := by
  obtain ⟨hg, hrows⟩ := hwf
  have hb0 := gridGet_some_bounds hg hrows hcell
  have hn1 : 1 ≤ s.board_size := by omega
  refine ⟨⟨?_, ?_⟩, fun be => rfl⟩
  · intro hw
    rw [is_win_from, List.any_eq_true] at hw
    obtain ⟨d, hd, hdp⟩ := hw
    rw [decide_eq_true_eq] at hdp
    simp only [checkLine] at hdp
    have hfwd1 : 1 ≤ checkLineAux s.grid s.board_size piece d.1 d.2 s.board_size r c := by
      refine checkLineAux_complete s.grid s.board_size piece d.1 d.2 1 s.board_size r c
        hn1 ?_
      intro k hk
      interval_cases k
      simpa using ⟨hb0, hcell⟩
    refine ⟨d, hd,
      checkLineAux s.grid s.board_size piece (-d.1) (-d.2) s.board_size (r - d.1) (c - d.2),
      checkLineAux s.grid s.board_size piece d.1 d.2 s.board_size r c - 1, ?_, by omega⟩
    intro k hk1 hk2
    rcases le_or_lt 0 k with hk0 | hk0
    · have hkn : k.toNat <
          checkLineAux s.grid s.board_size piece d.1 d.2 s.board_size r c := by omega
      have hs := checkLineAux_sound s.grid s.board_size piece d.1 d.2
        s.board_size r c k.toNat hkn
      rwa [Int.toNat_of_nonneg hk0] at hs
    · have hj : (-k - 1).toNat <
          checkLineAux s.grid s.board_size piece (-d.1) (-d.2) s.board_size
            (r - d.1) (c - d.2) := by omega
      have hs := checkLineAux_sound s.grid s.board_size piece (-d.1) (-d.2)
        s.board_size (r - d.1) (c - d.2) (-k - 1).toNat hj
      have hjk : ((( -k - 1).toNat : Nat) : Int) = -k - 1 := by omega
      have e1 : r - d.1 + (((-k - 1).toNat : Nat) : Int) * -d.1 = r + k * d.1 := by
        rw [hjk]; ring
      have e2 : c - d.2 + (((-k - 1).toNat : Nat) : Int) * -d.2 = c + k * d.2 := by
        rw [hjk]; ring
      rwa [e1, e2] at hs
  · rintro ⟨d, hd, a, b, hrun, hlen⟩
    rw [is_win_from, List.any_eq_true]
    refine ⟨d, hd, ?_⟩
    rw [decide_eq_true_eq]
    simp only [checkLine]
    obtain ⟨hbb1, hbb2, hbb3, hbb4⟩ :=
      gridGet_some_bounds hg hrows (hrun (b : Int) (by omega) (by omega))
    obtain ⟨haa1, haa2, haa3, haa4⟩ :=
      gridGet_some_bounds hg hrows (hrun (-(a : Int)) (by omega) (by omega))
    have hd12 : d.1 = 1 ∨ (d.1 = 0 ∧ d.2 = 1) := by
      have hdir : d = ((1 : Int), (0 : Int)) ∨ d = (0, 1) ∨ d = (1, 1) ∨ d = (1, -1) := by
        simpa [DIRS] using hd
      rcases hdir with rfl | rfl | rfl | rfl <;> simp
    have hab : a ≤ s.board_size ∧ b + 1 ≤ s.board_size := by
      rcases hd12 with h1 | ⟨h1, h2⟩
      · rw [h1] at hbb1 hbb2 haa1 haa2
        obtain ⟨hb01, hb02, hb03, hb04⟩ := hb0
        constructor <;> omega
      · rw [h2] at hbb3 hbb4 haa3 haa4
        obtain ⟨hb01, hb02, hb03, hb04⟩ := hb0
        constructor <;> omega
    have hge := run_ge s.grid s.board_size piece d.1 d.2 r c a b hg hrows hrun
      hab.1 hab.2
    omega

/-- C4 witness: on the 5×5 board whose top row is five `X`, the iff is
obtained at cell `(0, 2)` (which holds `X`). -/
theorem C4_is_win_from_runs_witness :
    WFGrid sFiveRow ∧ gridGet sFiveRow.grid 0 2 = some "X"
    ∧ (is_win_from sFiveRow 0 2 "X" = true ↔
        ∃ d ∈ DIRS, ∃ a b : Nat,
          runAll sFiveRow.grid "X" 0 2 d a b ∧ win_length sFiveRow ≤ a + b + 1) :=
  ⟨by decide, by decide,
   (C4_is_win_from_runs sFiveRow (by decide) 0 2 "X" (by decide)).1⟩

theorem getD_drop (l : List String) :
    ∀ (i k : Nat), (l.drop i).getD k emptyStr = l.getD (i + k) emptyStr := by
  induction l with
  | nil => intro i k; simp
  | cons x xs ih =>
    intro i k
    cases i with
    | zero => simp
    | succ i' =>
      rw [List.drop_succ_cons, ih i' k,
        show i' + 1 + k = (i' + k) + 1 by omega, List.getD_cons_succ]

theorem drop_eq_getD_cons (l : List String) (i : Nat) (h : i < l.length) :
    l.drop i = l.getD i emptyStr :: l.drop (i + 1) := by
  rw [List.getD_eq_getElem?_getD, List.getElem?_eq_getElem h]
  exact List.drop_eq_getElem_cons h

theorem runEnd_le (seq : List String) (piece : String) (i : Nat) (h : i ≤ seq.length) :
    runEnd seq piece i ≤ seq.length := by
  have h1 := leadCount_le piece (seq.drop i)
  rw [List.length_drop] at h1
  simp only [runEnd]
  omega

theorem runEnd_mem (seq : List String) (piece : String) (i : Nat) :
    ∀ k, i ≤ k → k < runEnd seq piece i → seq.getD k emptyStr = piece := by
  intro k hik hk
  have h1 := leadCount_mem piece (seq.drop i) (k - i)
    (by simp only [runEnd] at hk; omega)
  rw [getD_drop, show i + (k - i) = k by omega] at h1
  exact h1

theorem runEnd_stop (seq : List String) (piece : String) (i : Nat)
    (hi : i < seq.length) (h : runEnd seq piece i < seq.length) :
    seq.getD (runEnd seq piece i) emptyStr ≠ piece := by
  have hlc : leadCount piece (seq.drop i) < (seq.drop i).length := by
    rw [List.length_drop]
    simp only [runEnd] at h
    omega
  have h1 := leadCount_stop piece (seq.drop i) hlc
  rw [getD_drop] at h1
  exact h1

theorem runEnd_gt (seq : List String) (piece : String) (i : Nat)
    (hi : i < seq.length) (hp : seq.getD i emptyStr = piece) :
    i < runEnd seq piece i := by
  have hd := drop_eq_getD_cons seq i hi
  have h1 : 0 < leadCount piece (seq.drop i) := by
    rw [hd]; exact leadCount_pos piece _ _ hp
  simp only [runEnd]
  omega

/-- Counting two 0/1 indicators to 2 is the conjunction of their tests. -/
theorem openEnds_ite {A B : Int} (P1 P2 : Prop) [Decidable P1] [Decidable P2] :
    (if ((if P1 then (1 : Nat) else 0) + if P2 then 1 else 0) = 2 then A else B)
      = if P1 ∧ P2 then A else B := by
  by_cases h1 : P1 <;> by_cases h2 : P2 <;> simp [h1, h2]

/-- A single 0/1 indicator never reaches 2. -/
theorem ite_one_zero_ne_two (P : Prop) [Decidable P] :
    ((if P then (1 : Nat) else 0) = 2) = False := by
  by_cases h : P <;> simp [h]

/-- The source's run scoring chain coincides with the spec-side table
keyed by run length and both-ends-open, for `win_length ≤ 5`. -/
theorem srcRunScore_eq_spec (seq : List String) (piece : String) (winLen : Nat)
    (i : Nat) (hwin : winLen ≤ 5) (hi : i < seq.length)
    (hp : seq.getD i emptyStr = piece) :
    srcRunScore seq piece winLen i = specRunScore seq piece winLen i := by
  have hij := runEnd_gt seq piece i hi hp
  simp only [srcRunScore, specRunScore]
  by_cases h5 : winLen ≤ runEnd seq piece i - i
  · simp [h5]
  · have h1 : 1 ≤ runEnd seq piece i - i := by omega
    have h4 : runEnd seq piece i - i ≤ 4 := by omega
    obtain ⟨L, hLdef, hL1, hL4⟩ :
        ∃ L, runEnd seq piece i - i = L ∧ 1 ≤ L ∧ L ≤ 4 := ⟨_, rfl, h1, h4⟩
    rw [hLdef] at h5 ⊢
    interval_cases L <;>
      (by_cases hiL : 1 ≤ i <;>
       by_cases hjL : runEnd seq piece i < seq.length <;>
       simp [hiL, hjL, tableScore, SENT_WALL, h5, openEnds_ite, ite_one_zero_ne_two])

/-- The `score_line` loop from index `i` equals the spec-side sum of the
maximal-run scores over `[i, n)`, provided `i` does not land strictly
inside a run. -/
theorem score_line_from_eq (seq : List String) (piece : String) (winLen : Nat)
    (hwin : winLen ≤ 5) :
    ∀ (m i : Nat), seq.length - i ≤ m →
      (i < seq.length → seq.getD i emptyStr = piece →
        i = 0 ∨ seq.getD (i - 1) emptyStr ≠ piece) →
      score_line_from seq piece winLen i
        = ∑ k ∈ Finset.Ico i seq.length,
            (if seq.getD k emptyStr = piece ∧ (k = 0 ∨ seq.getD (k - 1) emptyStr ≠ piece)
             then specRunScore seq piece winLen k else 0) := by
  intro m
  induction m with
  | zero =>
    intro i hm _
    have hi : ¬i < seq.length := by omega
    rw [score_line_from, dif_neg hi, Finset.Ico_eq_empty (by omega), Finset.sum_empty]
  | succ m' ih =>
    intro i hm hstart
    by_cases hi : i < seq.length
    · rw [score_line_from, dif_pos hi]
      by_cases hp : seq.getD i emptyStr = piece
      · rw [dif_neg (by simpa using hp)]
        have hij := runEnd_gt seq piece i hi hp
        have hjle := runEnd_le seq piece i (le_of_lt hi)
        have hrec := ih (runEnd seq piece i) (by omega)
          (fun hjlt hpj => absurd hpj (runEnd_stop seq piece i hi hjlt))
        rw [hrec, ← Finset.sum_Ico_consecutive _ (le_of_lt hij) hjle]
        congr 1
        rw [Finset.sum_eq_sum_Ico_succ_bot hij]
        have hz : (∑ k ∈ Finset.Ico (i + 1) (runEnd seq piece i),
            (if seq.getD k emptyStr = piece ∧
                (k = 0 ∨ seq.getD (k - 1) emptyStr ≠ piece)
             then specRunScore seq piece winLen k else 0)) = 0 := by
          apply Finset.sum_eq_zero
          intro k hk
          rw [Finset.mem_Ico] at hk
          have hkm : seq.getD (k - 1) emptyStr = piece :=
            runEnd_mem seq piece i (k - 1) (by omega) (by omega)
          rw [if_neg]
          rintro ⟨-, h0 | hne⟩
          · omega
          · exact hne hkm
        rw [hz, add_zero, if_pos ⟨hp, hstart hi hp⟩]
        exact srcRunScore_eq_spec seq piece winLen i hwin hi hp
      · rw [dif_pos hp]
        rw [ih (i + 1) (by omega) (fun _ _ => Or.inr (by simpa using hp))]
        rw [Finset.sum_eq_sum_Ico_succ_bot hi, if_neg (fun hcon => hp hcon.1), zero_add]
    · rw [score_line_from, dif_neg hi, Finset.Ico_eq_empty (by omega), Finset.sum_empty]

/-- C9: for every line, piece and `win_length ≤ 5` (the program only ever
uses `win_length = min(5, board_size)`), `score_line` is the sum over the
maximal contiguous runs of the piece of the win constant (length ≥
`win_length`) or the table value keyed by length 1–4 and open-vs-closed,
where an end is open exactly when the adjacent cell is empty — a blocked
cell (wall) or the line boundary is not open. -/
theorem C9_score_line_spec (seq : List String) (piece : String) (winLen : Nat)
    (hwin : winLen ≤ 5) :
    score_line seq piece winLen = specLineScore seq piece winLen := by
  rw [score_line, specLineScore,
    score_line_from_eq seq piece winLen hwin seq.length 0 (by omega)
      (fun _ _ => Or.inl rfl), Finset.range_eq_Ico]

/-- C9 witness: a doubly-open run of two `X` between empty cells, next to
a closed single `O`, evaluated concretely. -/
theorem C9_score_line_spec_witness :
    (5 : Nat) ≤ 5
    ∧ score_line ["O", ".", "X", "X", ".", "|"] "X" 5
        = specLineScore ["O", ".", "X", "X", ".", "|"] "X" 5 :=
  ⟨by decide,
   C9_score_line_spec ["O", ".", "X", "X", ".", "|"] "X" 5 (by decide)⟩

theorem mem_insertBy {α : Type} (keep : α → α → Bool) (x y : α) (l : List α) :
    y ∈ insertBy keep x l ↔ y = x ∨ y ∈ l := by
  induction l with
  | nil => simp [insertBy]
  | cons z zs ih =>
    simp only [insertBy]
    split_ifs with hk
    · rw [List.mem_cons, ih, List.mem_cons]
      tauto
    · exact List.mem_cons

theorem mem_sortBy {α : Type} (keep : α → α → Bool) (l : List α) (y : α)
    (h : y ∈ sortBy keep l) : y ∈ l := by
  suffices haux : ∀ (l0 acc : List α),
      y ∈ l0.foldl (fun a x => insertBy keep x a) acc → y ∈ l0 ∨ y ∈ acc by
    rcases haux l [] h with h1 | h1
    · exact h1
    · simp at h1
  intro l0
  induction l0 with
  | nil =>
    intro acc h0
    exact Or.inr h0
  | cons x xs ih =>
    intro acc h0
    rcases ih (insertBy keep x acc) h0 with h1 | h1
    · exact Or.inl (List.mem_cons_of_mem _ h1)
    · rcases (mem_insertBy keep x y acc).mp h1 with rfl | h2
      · exact Or.inl (List.mem_cons_self _ _)
      · exact Or.inr h2

theorem mem_dedupAux (seen l : List (Int × Int)) (y : Int × Int)
    (h : y ∈ dedupAux seen l) : y ∈ l := by
  induction l generalizing seen with
  | nil => simp [dedupAux] at h
  | cons x xs ih =>
    simp only [dedupAux] at h
    split_ifs at h with hx
    · exact List.mem_cons_of_mem _ (ih _ h)
    · rcases List.mem_cons.mp h with rfl | h2
      · exact List.mem_cons_self _ _
      · exact List.mem_cons_of_mem _ (ih _ h2)

theorem randomChoice_mem (rnd : Nat) (l : List (Int × Int)) (h : l ≠ []) :
    randomChoice rnd l ∈ l := by
  have hlen : rnd % l.length < l.length :=
    Nat.mod_lt _ (List.length_pos.mpr h)
  simp only [randomChoice, List.getD_eq_getElem?_getD,
    List.getElem?_eq_getElem hlen, Option.getD_some]
  exact List.getElem_mem hlen

theorem mem_legal_empties_nonneg (s : GameState) (rc : Int × Int)
    (h : rc ∈ legal_empties s) : 0 ≤ rc.1 := by
  simp only [legal_empties, List.mem_bind, List.mem_filterMap, List.mem_range] at h
  obtain ⟨r, hr, c, hc, hite⟩ := h
  split_ifs at hite with hcond
  simp only [Option.some.injEq] at hite
  rw [← hite]
  exact Int.natCast_nonneg r

theorem mem_candidate_moves_nonneg (s : GameState) (rc : Int × Int)
    (h : rc ∈ candidate_moves s 2) : 0 ≤ rc.1 := by
  simp only [candidate_moves] at h
  split_ifs at h with hst
  · simp at h
  · have h1 := mem_dedupAux _ _ _ (mem_sortBy _ _ _ h)
    simp only [List.mem_bind, List.mem_filterMap] at h1
    obtain ⟨st, hstm, r, hr, c, hc, hite⟩ := h1
    split_ifs at hite with hcond
    simp only [Option.some.injEq] at hite
    rw [← hite]
    exact hcond.1.1

theorem mem_order_moves (g : List (List Cell)) (bl : Coord → Option Int)
    (moves : List (Int × Int)) (me : String) (winLen : Nat) (rc : Int × Int)
    (h : rc ∈ order_moves g bl moves me winLen) : rc ∈ moves := by
  simp only [order_moves, List.mem_append] at h
  rcases h with (h | h) | h
  · exact (List.mem_filter.mp h).1
  · exact (List.mem_filter.mp h).1
  · exact (List.mem_filter.mp (mem_sortBy _ _ _ h)).1

theorem find_eq_head_filter {α : Type} (p : α → Bool) (l : List α) :
    l.find? p = (l.filter p).head? := by
  induction l with
  | nil => rfl
  | cons x xs ih =>
    by_cases hx : p x
    · rw [List.find?_cons_of_pos _ hx, List.filter_cons_of_pos hx, List.head?_cons]
    · rw [List.find?_cons_of_neg _ hx, List.filter_cons_of_neg hx, ih]

theorem mediumPick_foldl_mem (s : GameState) (piece : String) :
    ∀ (l : List (Int × Int)) (acc : Option ((Int × Int) × ℚ)) (rc : Int × Int) (v : ℚ),
      l.foldl (fun acc0 rc0 =>
        let val := evaluate_grid (gridSet s.grid rc0.1 rc0.2 (some piece))
          s.blocked_expiry piece (win_length s)
        match acc0 with
        | none => some (rc0, val)
        | some (brc, bv) => if bv < val then some (rc0, val) else some (brc, bv)) acc
          = some (rc, v) →
      (∃ v0, acc = some (rc, v0)) ∨ rc ∈ l := by
  intro l
  induction l with
  | nil =>
    intro acc rc v h
    exact Or.inl ⟨v, h⟩
  | cons x xs ih =>
    intro acc rc v h
    rw [List.foldl_cons] at h
    rcases ih _ rc v h with ⟨v0, hacc⟩ | hmem
    · match acc with
      | none =>
        simp only [Option.some.injEq, Prod.mk.injEq] at hacc
        exact Or.inr (by rw [← hacc.1]; exact List.mem_cons_self _ _)
      | some (brc, bv) =>
        simp only at hacc
        split_ifs at hacc with hlt
        · simp only [Option.some.injEq, Prod.mk.injEq] at hacc
          exact Or.inr (by rw [← hacc.1]; exact List.mem_cons_self _ _)
        · simp only [Option.some.injEq, Prod.mk.injEq] at hacc
          exact Or.inl ⟨bv, by rw [hacc.1]⟩
    · exact Or.inr (List.mem_cons_of_mem _ hmem)

theorem mediumPick_mem (s : GameState) (piece : String) (cands : List (Int × Int))
    (rc : Int × Int) (h : mediumPick s piece cands = some rc) : rc ∈ cands := by
  simp only [mediumPick, Option.map_eq_some'] at h
  obtain ⟨⟨rc', v⟩, hf, h1⟩ := h
  simp only at h1
  subst h1
  rcases mediumPick_foldl_mem s piece cands none rc' v hf with ⟨v0, habs⟩ | hm
  · cases habs
  · exact hm

theorem searchLoop_mem (step : XQ → (Int × Int) → XQ) (beta : XQ) :
    ∀ (l : List (Int × Int)) (bm : Option (Int × Int)) (bv alpha : XQ)
      (rc : Int × Int),
      (searchLoop step beta l bm bv alpha).1 = some rc → rc ∈ l ∨ bm = some rc := by
  intro l
  induction l with
  | nil =>
    intro bm bv alpha rc h
    exact Or.inr h
  | cons x xs ih =>
    intro bm bv alpha rc h
    simp only [searchLoop] at h
    by_cases hc1 : XQ.blt bv (step alpha x) <;>
      simp only [hc1, if_true, if_false] at h <;>
      split_ifs at h <;>
      first
        | exact Or.inr h
        | exact Or.inl (by rw [← Option.some.inj h]; exact List.mem_cons_self _ _)
        | (rcases ih _ _ _ rc h with hm | hm
           · exact Or.inl (List.mem_cons_of_mem _ hm)
           · first
               | exact Or.inr hm
               | exact Or.inl (by rw [← Option.some.inj hm]; exact List.mem_cons_self _ _))

theorem search_best_mem (cpu : CPU) (s : GameState) (cands : List (Int × Int))
    (depth breadth : Nat) (rc : Int × Int)
    (h : (search_best cpu s cands depth breadth).1 = some rc) : rc ∈ cands := by
  simp only [search_best] at h
  rcases searchLoop_mem _ _ _ _ _ _ _ h with hm | hm
  · exact mem_order_moves _ _ _ _ _ _ (List.mem_of_mem_take hm)
  · cases hm

/-- The difficulty dispatch of `choose_move` always answers a member of
its candidate list. -/
theorem dispatch_mem (cpu : CPU) (rnd : Nat) (s : GameState)
    (cands : List (Int × Int)) (hCne : cands ≠ []) :
    (if cpu.difficulty = "easy" then randomChoice rnd cands
     else if cpu.difficulty = "medium" then
       match mediumPick s cpu.cpu_piece cands with
       | some rc => rc
       | none => randomChoice rnd cands
     else
       match (search_best cpu s cands 2 12).1 with
       | some rc => rc
       | none => randomChoice rnd cands) ∈ cands := by
  split_ifs with hd1 hd2
  · exact randomChoice_mem rnd _ hCne
  · rcases hm : mediumPick s cpu.cpu_piece cands with _ | rc3
    · simp only [hm]
      exact randomChoice_mem rnd _ hCne
    · simp only [hm]
      exact mediumPick_mem _ _ _ _ hm
  · rcases hsb : (search_best cpu s cands 2 12).1 with _ | rc4
    · simp only [hsb]
      exact randomChoice_mem rnd _ hCne
    · simp only [hsb]
      exact search_best_mem _ _ _ _ _ _ hsb

/-- Whenever a legal cell exists, `choose_move` answers either the centre
opening or a member of the legal/candidate sets — never the sentinel. -/
theorem choose_move_shape (cpu : CPU) (rnd : Nat) (s : GameState)
    (hne : legal_empties s ≠ []) :
    choose_move cpu rnd s
        = (((s.board_size / 2 : Nat) : Int), ((s.board_size / 2 : Nat) : Int))
    ∨ choose_move cpu rnd s ∈ legal_empties s
    ∨ choose_move cpu rnd s ∈ candidate_moves s 2 := by
  rw [choose_move]
  rw [if_neg hne]
  by_cases hbe : board_is_empty s
  · rw [if_pos hbe]
    exact Or.inl rfl
  · rw [if_neg hbe]
    rcases hf1 : find_tactical_win s cpu.cpu_piece (legal_empties s) with _ | rc1
    · simp only [hf1]
      rcases hf2 : find_tactical_win s cpu.opp_piece (legal_empties s) with _ | rc2
      · simp only [hf2]
        by_cases hc0 : candidate_moves s 2 = []
        · simp only [if_pos hc0]
          exact Or.inr (Or.inl (dispatch_mem cpu rnd s (legal_empties s) hne))
        · simp only [if_neg hc0]
          exact Or.inr (Or.inr (dispatch_mem cpu rnd s (candidate_moves s 2) hc0))
      · simp only [hf2]
        rw [find_tactical_win] at hf2
        exact Or.inr (Or.inl (List.mem_of_find?_eq_some hf2))
    · simp only [hf1]
      rw [find_tactical_win] at hf1
      exact Or.inr (Or.inl (List.mem_of_find?_eq_some hf1))

/-- C6: `choose_move` answers the sentinel `(-1,-1)` exactly when no
empty, unblocked cell exists; and with at least one legal cell and at
least one stone on the board, if some legal cell wins immediately for the
CPU's piece it plays the first such cell in row-major order, else if some
legal cell wins immediately for the opponent's piece it blocks at the
first such cell — for every difficulty tier and random draw. -/
theorem C6_choose_move_tactics (cpu : CPU) (rnd : Nat) (s : GameState) :
    (choose_move cpu rnd s = (-1, -1) ↔ legal_empties s = [])
    ∧ (board_is_empty s = false →
        (∀ hW : (legal_empties s).filter (fun rc =>
            winning_if_place s.grid s.blocked_expiry s.board_size rc.1 rc.2
              cpu.cpu_piece (win_length s)) ≠ [],
          choose_move cpu rnd s = ((legal_empties s).filter (fun rc =>
            winning_if_place s.grid s.blocked_expiry s.board_size rc.1 rc.2
              cpu.cpu_piece (win_length s))).head hW)
        ∧ ((legal_empties s).filter (fun rc =>
            winning_if_place s.grid s.blocked_expiry s.board_size rc.1 rc.2
              cpu.cpu_piece (win_length s)) = [] →
          ∀ hB : (legal_empties s).filter (fun rc =>
            winning_if_place s.grid s.blocked_expiry s.board_size rc.1 rc.2
              cpu.opp_piece (win_length s)) ≠ [],
          choose_move cpu rnd s = ((legal_empties s).filter (fun rc =>
            winning_if_place s.grid s.blocked_expiry s.board_size rc.1 rc.2
              cpu.opp_piece (win_length s))).head hB)) := by
  constructor
  · constructor
    · intro hsent
      by_contra hne
      rcases choose_move_shape cpu rnd s hne with hc | hc | hc
      · rw [hsent] at hc
        have h1 : (-1 : Int) = ((s.board_size / 2 : Nat) : Int) :=
          congrArg Prod.fst hc
        omega
      · have h1 := mem_legal_empties_nonneg s _ hc
        rw [hsent] at h1
        simp at h1
      · have h1 := mem_candidate_moves_nonneg s _ hc
        rw [hsent] at h1
        simp at h1
    · intro hempty
      rw [choose_move, if_pos hempty]
  · intro hbe
    constructor
    · intro hW
      have hne : legal_empties s ≠ [] := by
        intro h0
        exact hW (by rw [h0, List.filter_nil])
      have hfind : find_tactical_win s cpu.cpu_piece (legal_empties s)
          = some (((legal_empties s).filter (fun rc =>
              winning_if_place s.grid s.blocked_expiry s.board_size rc.1 rc.2
                cpu.cpu_piece (win_length s))).head hW) := by
        rw [find_tactical_win, find_eq_head_filter, List.head?_eq_head hW]
      rw [choose_move, if_neg hne, if_neg (by rw [hbe]; simp)]
      simp only [hfind]
    · intro hWe hB
      have hne : legal_empties s ≠ [] := by
        intro h0
        exact hB (by rw [h0, List.filter_nil])
      have hfind1 : find_tactical_win s cpu.cpu_piece (legal_empties s) = none := by
        rw [find_tactical_win, find_eq_head_filter, hWe, List.head?_nil]
      have hfind2 : find_tactical_win s cpu.opp_piece (legal_empties s)
          = some (((legal_empties s).filter (fun rc =>
              winning_if_place s.grid s.blocked_expiry s.board_size rc.1 rc.2
                cpu.opp_piece (win_length s))).head hB) := by
        rw [find_tactical_win, find_eq_head_filter, List.head?_eq_head hB]
      rw [choose_move, if_neg hne, if_neg (by rw [hbe]; simp)]
      simp only [hfind1, hfind2]

/-- C6 witness: with four `O` in the top row, the easy CPU playing `O`
completes five-in-a-row at `(0, 4)`, the first (row-major) winning cell. -/
theorem C6_choose_move_tactics_witness :
    board_is_empty sFourRow = false
    ∧ (legal_empties sFourRow).filter (fun rc =>
        winning_if_place sFourRow.grid sFourRow.blocked_expiry sFourRow.board_size
          rc.1 rc.2 cpuEasyO.cpu_piece (win_length sFourRow)) ≠ []
    ∧ choose_move cpuEasyO 0 sFourRow = (0, 4) := by
  refine ⟨by decide, by decide, ?_⟩
  have h := ((C6_choose_move_tactics cpuEasyO 0 sFourRow).2 (by decide)).1 (by decide)
  rw [h]
  decide
